import Mathlib

/-!
Shallow embedding of the query-routing and multi-patient context-assembly
pipeline of the `ivf-project` repository, together with theorems checking the
natural-language specification against it.

Conventions of the embedding:
* `patients.py` / `query_analyzer.py` / `app.py` functions become Lean
  definitions of the same name.
* The rapidfuzz `WRatio` scorer is an external library; it is passed in as a
  parameter `score : String → String → Nat` (rapidfuzz scores live on a 0–100
  scale; the integer thresholds 80/60 of the source compare against it).
* The LLM routing oracle (`chain.invoke`) is external and fallible; it is
  modelled by `OracleCall` (either a structured output or a failure, the
  failure covering raises, timeouts and unparsable output).
* The regex fallback extraction of `query_analyzer.py` lines 93-104 uses the
  Python `re` library; the final `matches` list it produces is passed in as a
  parameter `fb : String → List String`.
* Python dicts keyed by strings become association lists or functions;
  Python string operations map to kernel-evaluable counterparts defined below
  (`strip` ↦ `pyStrip`, `lower` ↦ `pyLower`, slicing ↦ `pyTake`,
  `in` ↦ `containsSub`).
-/

/-- Python `s.strip()`: drop leading and trailing whitespace. Implemented over
the character list so that it evaluates inside the kernel. -/
def pyStrip (s : String) : String :=
  String.mk (((s.toList.dropWhile Char.isWhitespace).reverse.dropWhile Char.isWhitespace).reverse)

/-- Python `s.lower()`, over the character list so that it evaluates inside
the kernel. -/
def pyLower (s : String) : String :=
  String.mk (s.toList.map Char.toLower)

/-- Python slicing `s[:n]`, over the character list so that it evaluates
inside the kernel. -/
def pyTake (s : String) (n : Nat) : String :=
  String.mk (s.toList.take n)

/-- A patient record as assembled by `build_roster_from_supabase`
(`patients.py` lines 27-32). -/
structure PatientRecord where
  patient_id : String
  first_name : String
  last_name : String
  dob : String
deriving DecidableEq

/-- Python substring containment `pat in s` over the characters of the two
strings. -/
def containsSub (s pat : String) : Bool :=
  (List.range (s.toList.length + 1)).any (fun i => pat.toList.isPrefixOf (s.toList.drop i))

/-- The display/full name `f"{r['first_name']} {r['last_name']}".strip()`
used for fuzzy matching (`patients.py` line 41). -/
def fullName (r : PatientRecord) : String :=
  pyStrip (r.first_name ++ " " ++ r.last_name)

/-- The case-insensitive `patient_id` substring hits of `patients.py` line 38
(applied to the already-stripped reference `q`). -/
def id_hits (roster : List PatientRecord) (q : String) : List PatientRecord :=
  roster.filter (fun r => containsSub (pyLower r.patient_id) (pyLower q))

/-- Model of `rapidfuzz.process.extractOne`: the best `(choice, score, index)`
triple, the first index winning ties, `none` exactly on an empty choice list. -/
def extractOne (f : String → Nat) : List String → Option (String × Nat × Nat)
  | [] => none
  | n :: ns =>
    match extractOne f ns with
    | none => some (n, f n, 0)
    | some (m, s, i) => if s ≤ f n then some (n, f n, 0) else some (m, s, i + 1)

/-- Ordering by descending score on `(choice, score, index)` triples, used to
model the ranking performed by `rapidfuzz.process.extract`. -/
def scoreGe (a b : String × Nat × Nat) : Prop :=
  b.2.1 ≤ a.2.1

instance : DecidableRel scoreGe := fun a b => inferInstanceAs (Decidable (b.2.1 ≤ a.2.1))

instance : IsTotal (String × Nat × Nat) scoreGe :=
  ⟨fun a b => (Nat.le_total b.2.1 a.2.1).elim Or.inl Or.inr⟩

instance : IsTrans (String × Nat × Nat) scoreGe :=
  ⟨fun _ _ _ hab hbc => Nat.le_trans hbc hab⟩

/-- The scored choice list `[(choice, score(choice), index)]` that rapidfuzz
ranks. -/
def scoredNames (f : String → Nat) (names : List String) : List (String × Nat × Nat) :=
  (List.range names.length).map (fun i => (names.getD i "", f (names.getD i ""), i))

/-- Model of `rapidfuzz.process.extract(q, names, limit)`: all choices ranked
by descending score (stable), truncated to `limit`. -/
def extract (f : String → Nat) (names : List String) (lim : Nat) : List (String × Nat × Nat) :=
  (List.insertionSort scoreGe (scoredNames f names)).take lim

/-- Placeholder record used only for the (unreachable) out-of-bounds case of
Python list indexing `roster[idx]`. -/
def defaultPatient : PatientRecord :=
  { patient_id := "", first_name := "", last_name := "", dob := "" }

/-- The candidate list comprehension of `patients.py` lines 45-46:
`[roster[idx] for name, score, idx in extract(q, names, limit=5) if score >= 60]`. -/
def fuzzyCands (score : String → String → Nat) (roster : List PatientRecord)
    (q : String) : List PatientRecord :=
  ((extract (score q) (roster.map fullName) 5).filter (fun t => 60 ≤ t.2.1)).map
    (fun t => roster.getD t.2.2 defaultPatient)

/-- Function `fuzzy_resolve` of `patients.py` lines 35-48, with the rapidfuzz scorer as
the parameter `score q name`. Returns `(resolved, candidates, reason)`. -/
def fuzzy_resolve (score : String → String → Nat) (roster : List PatientRecord)
    (q0 : String) : Option PatientRecord × List PatientRecord × String :=
  let q := pyStrip q0
  if q = "" then (none, [], "none")
  else
    let hits := id_hits roster q
    if hits.length = 1 then (hits.head?, [], "by_id")
    else if 1 < hits.length then (none, hits, "ambiguous")
    else
      let names := roster.map fullName
      if names ≠ [] then
        match extractOne (score q) names with
        | some best =>
          if 80 ≤ best.2.1 then (some (roster.getD best.2.2 defaultPatient), [], "by_name")
          else if fuzzyCands score roster q ≠ [] then (none, fuzzyCands score roster q, "ambiguous")
          else (none, [], "none")
        | none =>
          if fuzzyCands score roster q ≠ [] then (none, fuzzyCands score roster q, "ambiguous")
          else (none, [], "none")
      else (none, [], "none")

/-! ### Roster construction (`patients.py` lines 5-33) -/

/-- A `metadata` JSON object, modelled as an association list from keys to
string values (`str(md[k])` stringifies the stored value). -/
def Row : Type := List (String × String)

/-- The `ALIASES` table of `patients.py` lines 5-10; `ALIASES.get(key, [key])`
behaviour included. -/
def ALIASES (key : String) : List String :=
  if key = "patient_id" then ["patient_id", "Patient_Id", "PatientID"]
  else if key = "first_name" then ["first_name", "First_Name"]
  else if key = "last_name" then ["last_name", "Last_Name"]
  else if key = "dob" then ["dob", "Date_of_birth", "DOB"]
  else [key]

/-- Function `mget` of `patients.py` lines 12-16: the value of the first alias present
in the metadata, else `""`. -/
def mget (md : Row) (key : String) : String :=
  match (ALIASES key).findSome? (fun k => (List.find? (fun p => p.1 == k) md).map Prod.snd) with
  | some v => v
  | none => ""

/-- Expression `row.get("metadata") or (empty dict)` of `patients.py` line 23: a missing/null
metadata object becomes the empty dict. -/
def rowMd (row : Option Row) : Row := row.getD []

/-- The patient id extracted from one row. -/
def rowPid (row : Option Row) : String := mget (rowMd row) "patient_id"

/-- The `PatientRecord` built from one row (`patients.py` lines 27-32). -/
def rowRecord (row : Option Row) : PatientRecord :=
  { patient_id := rowPid row
    first_name := mget (rowMd row) "first_name"
    last_name := mget (rowMd row) "last_name"
    dob := mget (rowMd row) "dob" }

/-- One iteration of the roster-building loop (`patients.py` lines 22-32):
skip rows without a patient id, first occurrence of an id wins, insertion
order preserved (Python dicts preserve insertion order, and
`list(by_pid.values())` returns the records in that order). -/
def rosterStep (acc : List PatientRecord) (row : Option Row) : List PatientRecord :=
  let pid := rowPid row
  if pid = "" then acc
  else if acc.any (fun r => r.patient_id == pid) then acc
  else acc ++ [rowRecord row]

/-- Function `build_roster_from_supabase` of `patients.py` lines 18-33, over the rows
returned by the backing store. -/
def build_roster_from_supabase (rows : List (Option Row)) : List PatientRecord :=
  rows.foldl rosterStep []

/-! ### Intent classification (`query_analyzer.py`) -/

/-- The structured routing decision dict assembled by
`analyze_query_with_slm` (`query_analyzer.py` lines 74-82): missing dict keys
are represented by their defaults (`unresolved_refs` absent ↦ `[]`, matching
the reader `analysis.get("unresolved_refs", [])` in `app.py`). -/
structure RouteResult where
  intent : String
  patient_reference : Option String
  patient_references : List String
  confidence : Rat
  resolved_patient : Option PatientRecord
  resolved_patients : List PatientRecord
  candidates : List PatientRecord
  unresolved_refs : List String
deriving DecidableEq

/-- The JSON object produced by the routing LLM; each field may be missing
(`Option`), mirroring the `.get(key, default)` reads. -/
structure OracleOut where
  intent : Option String
  patient_reference : Option String
  patient_references : Option (List String)
  confidence : Option Rat

/-- One call of the external classification oracle: either structured output
or a failure (exception, timeout, unparsable output — everything the
`except Exception` of `query_analyzer.py` line 66 catches). -/
inductive OracleCall where
  | ok : OracleOut → OracleCall
  | failure : OracleCall

/-- The `routing_decision` dict after the try/except of `query_analyzer.py`
lines 64-72: oracle output on success, the hardcoded fallback
`{"intent": "general", "patient_reference": None, "confidence": 0.5}` on
failure. -/
def routing_decision : OracleCall → OracleOut
  | .ok o => o
  | .failure =>
    { intent := some "general"
      patient_reference := none
      patient_references := none
      confidence := some (1/2) }

/-- The initial `result` dict of `query_analyzer.py` lines 74-82. -/
def routeInit (oc : OracleCall) : RouteResult :=
  let rd := routing_decision oc
  { intent := rd.intent.getD "general"
    patient_reference := rd.patient_reference
    patient_references := rd.patient_references.getD []
    confidence := rd.confidence.getD (1/2)
    resolved_patient := none
    resolved_patients := []
    candidates := []
    unresolved_refs := [] }

/-- The merge loop of `query_analyzer.py` lines 102-104: append each
non-empty extracted match not already present (exact string comparison). -/
def appendNewMatches (refs ms : List String) : List String :=
  ms.foldl (fun acc m => if m ≠ "" ∧ m ∉ acc then acc ++ [m] else acc) refs

/-- The case-insensitive order-preserving dedup of `query_analyzer.py`
lines 106-114 (`seen` set of lowercased, stripped references; empty ones
dropped). -/
def dedupRefs (refs : List String) : List String :=
  (refs.foldl
    (fun st ref =>
      let rl := pyStrip (pyLower ref)
      if rl ≠ "" ∧ rl ∉ st.1 then (st.1 ++ [rl], st.2 ++ [ref]) else st)
    (([] : List String), ([] : List String))).2

/-- The per-reference resolution loop of `query_analyzer.py` lines 117-127:
resolve each non-empty reference, collecting resolved patients (unique by
`patient_id`, first resolution wins) and unresolved reference strings. -/
def resolveRefs (score : String → String → Nat) (roster : List PatientRecord)
    (refs : List String) : List PatientRecord × List String :=
  refs.foldl
    (fun st ref =>
      if ref ≠ "" then
        match (fuzzy_resolve score roster ref).1 with
        | some resolved =>
          if st.1.any (fun p => p.patient_id == resolved.patient_id) then st
          else (st.1 ++ [resolved], st.2)
        | none => (st.1, st.2 ++ [ref])
      else st)
    ([], [])

/-- The `multi_patient` branch of `query_analyzer.py` lines 85-146. `fb` is
the regex fallback extraction (the final `matches` list of lines 93-100). -/
def multiBranch (score : String → String → Nat) (fb : String → List String)
    (query : String) (roster : List PatientRecord) (result : RouteResult) : RouteResult :=
  if result.intent = "multi_patient" then
    let refs0 := result.patient_references
    let refs1 := if refs0.length < 2 then appendNewMatches refs0 (fb query) else refs0
    let refs := dedupRefs refs1
    if 2 ≤ refs.length then
      let rp := resolveRefs score roster refs
      if 2 ≤ rp.1.length then
        { result with
            intent := "multi_patient"
            resolved_patients := rp.1
            unresolved_refs := rp.2 }
      else
        { result with intent := "patient_specific_not_found", unresolved_refs := rp.2 }
    else
      { result with intent := "patient_specific", patient_reference := refs.head? }
  else result

/-- The `patient_specific` branch of `query_analyzer.py` lines 149-170
(`if patient_ref:` treats both a missing and an empty reference as absent). -/
def singleBranch (score : String → String → Nat) (roster : List PatientRecord)
    (locked : Option PatientRecord) (result : RouteResult) : RouteResult :=
  if result.intent = "patient_specific" then
    let pr := result.patient_reference.getD ""
    if pr ≠ "" then
      let r := fuzzy_resolve score roster pr
      match r.1 with
      | some resolved => { result with resolved_patient := some resolved }
      | none =>
        if r.2.1 ≠ [] then { result with candidates := r.2.1 }
        else { result with intent := "patient_specific_not_found" }
    else
      match locked with
      | some lp =>
        { result with resolved_patient := some lp, intent := "patient_specific_use_locked" }
      | none => { result with intent := "patient_specific_no_context" }
  else result

/-- Function `analyze_query_with_slm` of `query_analyzer.py` lines 46-172: initial
dict from the oracle call, then the multi-patient refinement, then the
single-patient refinement. -/
def analyze_query_with_slm (oc : OracleCall) (score : String → String → Nat)
    (fb : String → List String) (query : String) (roster : List PatientRecord)
    (locked : Option PatientRecord) : RouteResult :=
  singleBranch score roster locked (multiBranch score fb query roster (routeInit oc))

/-! ### Multi-patient evidence assembly (`app.py`) -/

/-- A retrieved chunk row `{id, content, metadata, similarity}` as returned by
the retrieval backend (`retrieve_supabase.py`); `id` is `Option` because
`h.get("id")` may be absent/null, and the metadata payload is left opaque. -/
structure Chunk where
  id : Option String
  content : String
  metadata : String
deriving DecidableEq

/-- The dedup key `h.get("id") or h.get("content", "")[:50]` of `app.py`
(Python `or` falls through on a missing or empty id). -/
def chunkIdentity (h : Chunk) : String :=
  match h.id with
  | some i => if i ≠ "" then i else pyTake h.content 50
  | none => pyTake h.content 50

/-- One retrieval pass folded into the `(seen_chunk_ids, patient_hits)` state
(`app.py` lines 211-215, 220-224, 228-232, 243-247 all repeat this loop): a
chunk whose identity was already seen is discarded, otherwise its identity is
recorded and the chunk is kept, tagged with the patient name. -/
def dedupFold (pname : String) (st : List String × List (Chunk × String))
    (hits : List Chunk) : List String × List (Chunk × String) :=
  hits.foldl
    (fun st h =>
      let cid := chunkIdentity h
      if cid ∈ st.1 then st else (st.1 ++ [cid], st.2 ++ [(h, pname)]))
    st

/-- The merged per-patient retrieval set of `app.py` lines 204-249: the
retrieval passes (strategies 1-4, each a list of hits from the backend) are
folded in order through one shared `seen_chunk_ids` set. -/
def patient_hits (pname : String) (passes : List (List Chunk)) : List (Chunk × String) :=
  (passes.foldl (dedupFold pname) ([], [])).2

/-- Modelled from the spec: first-occurrence filtering of one chunk stream —
keep a chunk exactly when its identity has not been seen before, preserving
stream order. Used as the specification-side description of the dedup. -/
def firstOccurrences (pname : String) : List Chunk → List String → List (Chunk × String)
  | [], _ => []
  | h :: hs, seen =>
    let cid := chunkIdentity h
    if cid ∈ seen then firstOccurrences pname hs seen
    else (h, pname) :: firstOccurrences pname hs (seen ++ [cid])

/-- The display name `f"{patient['first_name']} {patient['last_name']}"` used
as the `patient_chunks` dict key and the chunk tag in `app.py`. -/
def displayName (p : PatientRecord) : String :=
  p.first_name ++ " " ++ p.last_name

/-- Value `max_chunks` of `app.py` line 280: the maximum per-patient chunk count.
The dict `patient_chunks` is modelled as the function `pc` from a patient
display name to that patient's merged chunk list; its keys are exactly the
display names of `patients`, so the maximum over `patient_chunks.values()`
equals the maximum over the patients (and is `0` for no patients). -/
def max_chunks (patients : List PatientRecord) (pc : String → List (Chunk × String)) : Nat :=
  (patients.map (fun p => (pc (displayName p)).length)).foldr max 0

/-- The `CONTEXT SUMMARY` header of `app.py` lines 285-290. -/
def summaryLine (patients : List PatientRecord) (pc : String → List (Chunk × String)) : String :=
  "CONTEXT SUMMARY: " ++
    String.intercalate " | "
      (patients.map (fun p =>
        displayName p ++ ": " ++ toString (pc (displayName p)).length ++ " data chunks")) ++
    "\n\n"

/-- Value `interleaved_context` of `app.py` lines 281-301: the summary header
followed by the round-robin interleaving loop (`for i in range(max_chunks):
for patient in patients: if i < len(chunks): append "[pname]: content"`).
Each kept chunk carries its stored tag `pname`. -/
def interleaved_context (patients : List PatientRecord)
    (pc : String → List (Chunk × String)) : List String :=
  summaryLine patients pc ::
    (List.range (max_chunks patients pc)).foldl
      (fun acc i =>
        patients.foldl
          (fun acc2 p =>
            match (pc (displayName p))[i]? with
            | some hp => acc2 ++ ["[" ++ hp.2 ++ "]: " ++ hp.1.content]
            | none => acc2)
          acc)
      []

/-- Modelled from the spec: round-robin emission — for each round index, emit
the chunk at that index of every patient in resolved-patient order, skipping
exhausted patients, each chunk tagged with its owning patient's display
name. -/
def roundRobinSpec (patients : List PatientRecord)
    (pc : String → List (Chunk × String)) : List String :=
  (List.range (max_chunks patients pc)).flatMap
    (fun i =>
      patients.filterMap
        (fun p =>
          ((pc (displayName p))[i]?).map
            (fun hp => "[" ++ displayName p ++ "]: " ++ hp.1.content)))

/-- Every stored chunk tag under a patient's key is that patient's display
name (true of the `patient_chunks` dict built in `app.py` lines 204-276). -/
def WellTagged (patients : List PatientRecord) (pc : String → List (Chunk × String)) : Prop :=
  ∀ p ∈ patients, ∀ hp ∈ pc (displayName p), hp.2 = displayName p

instance (patients : List PatientRecord) (pc : String → List (Chunk × String)) :
    Decidable (WellTagged patients pc) :=
  inferInstanceAs (Decidable (∀ p ∈ patients, ∀ hp ∈ pc (displayName p), hp.2 = displayName p))

/-! ### Context window construction (`app.py` lines 415-425) -/

/-- The context-item cap of `app.py` lines 418-425: `max(50, num_patients*15)`
when at least two patients resolved (the Python guard
`analysis.get("resolved_patients") and len(...) >= 2` is equivalent to the
length test), a fixed `20` otherwise. -/
def max_context_chunks (resolved_patients : List PatientRecord) : Nat :=
  if 2 ≤ resolved_patients.length then max 50 (resolved_patients.length * 15) else 20

/-- The slice `context[:max_context_chunks]` actually joined into the payload. -/
def included_context (resolved_patients : List PatientRecord)
    (context : List String) : List String :=
  context.take (max_context_chunks resolved_patients)

/-- Value `ctx_block` of `app.py` lines 418-425: the joined capped context, or the
explicit placeholder when the context list is empty (the Python conditional
tests the full `context` list, not the slice). -/
def ctx_block (resolved_patients : List PatientRecord) (context : List String) : String :=
  if context ≠ [] then
    String.intercalate "\n---\n" (included_context resolved_patients context)
  else "(no context)"

/-! ### Shared concrete inputs for witnesses -/

/-- Concrete roster entry used by witnesses. -/
def priya : PatientRecord :=
  { patient_id := "IVF001", first_name := "Priya", last_name := "Sharma", dob := "1990-01-01" }

/-- Concrete roster entry used by witnesses. -/
def meera : PatientRecord :=
  { patient_id := "IVF002", first_name := "Meera", last_name := "Iyer", dob := "1991-02-02" }

/-- Concrete two-entry roster used by witnesses. -/
def demoRoster : List PatientRecord := [priya, meera]

/-- A scorer that rejects every pair (used where the fuzzy step must fail). -/
def zeroScore : String → String → Nat := fun _ _ => 0

/-- A scorer that accepts every pair (used to show the id step pre-empts it). -/
def fullScore : String → String → Nat := fun _ _ => 100

/-! ### C9: empty reference short-circuit -/

/-- C9: for every roster, an empty or whitespace-only reference makes
`fuzzy_resolve` return `(none, [], "none")` immediately, and the result does
not depend on the roster at all (no id scan, no fuzzy scoring). -/
theorem c9_empty_reference (score : String → String → Nat) (roster : List PatientRecord)
    (q0 : String) (hq : pyStrip q0 = "") :
    fuzzy_resolve score roster q0 = (none, [], "none") ∧
    ∀ roster2, fuzzy_resolve score roster q0 = fuzzy_resolve score roster2 q0 := by
  refine ⟨?_, fun roster2 => ?_⟩ <;> simp [fuzzy_resolve, hq]

/-- Witness for C9 at a whitespace-only reference against a live roster. -/
theorem c9_witness :
    fuzzy_resolve zeroScore demoRoster "   " = (none, [], "none") :=
  (c9_empty_reference zeroScore demoRoster "   " (by decide)).1

/-! ### C5: id-substring step takes priority -/

/-- C5: for a non-empty reference, the resolver first scans `patient_id`
substring hits: exactly one hit resolves `by_id` with no candidates, several
hits yield no resolved record with all hits as candidates and reason
`ambiguous`, and whenever there is at least one id hit the result does not
depend on the fuzzy scorer at all (the name step is never attempted). -/
theorem c5_id_substring_priority (score score2 : String → String → Nat)
    (roster : List PatientRecord) (q0 : String) (hq : pyStrip q0 ≠ "") :
    (∀ r, id_hits roster (pyStrip q0) = [r] →
      fuzzy_resolve score roster q0 = (some r, [], "by_id")) ∧
    (2 ≤ (id_hits roster (pyStrip q0)).length →
      fuzzy_resolve score roster q0 = (none, id_hits roster (pyStrip q0), "ambiguous")) ∧
    (id_hits roster (pyStrip q0) ≠ [] →
      fuzzy_resolve score roster q0 = fuzzy_resolve score2 roster q0) := by
  refine ⟨?_, ?_, ?_⟩
  · intro r h
    simp [fuzzy_resolve, hq, h]
  · intro h
    have h1 : ¬ (id_hits roster (pyStrip q0)).length = 1 := by omega
    have h2 : 1 < (id_hits roster (pyStrip q0)).length := by omega
    simp [fuzzy_resolve, hq, h1, h2]
  · intro h
    rcases Nat.lt_or_ge 1 (id_hits roster (pyStrip q0)).length with hgt | hle
    · have h1 : ¬ (id_hits roster (pyStrip q0)).length = 1 := by omega
      simp [fuzzy_resolve, hq, h1, hgt]
    · have h0 : (id_hits roster (pyStrip q0)).length ≠ 0 := by
        simpa [List.length_eq_zero] using h
      have h1 : (id_hits roster (pyStrip q0)).length = 1 := by omega
      simp [fuzzy_resolve, hq, h1]

/-- Witness for C5: the reference `"IVF001"` is an exact patient id; it
resolves `by_id` even under a scorer that would give every name a perfect
fuzzy score. -/
theorem c5_witness :
    fuzzy_resolve fullScore demoRoster "IVF001" = (some priya, [], "by_id") :=
  (c5_id_substring_priority fullScore fullScore demoRoster "IVF001" (by decide)).1
    priya (by decide)

/-! ### C10: the three result shapes -/

/-- Enumeration of the syntactic results `fuzzy_resolve` can produce, straight
from its branch structure. -/
lemma fuzzy_resolve_cases (score : String → String → Nat) (roster : List PatientRecord)
    (q0 : String) :
    fuzzy_resolve score roster q0 = (none, [], "none") ∨
    (∃ r, fuzzy_resolve score roster q0 = (some r, [], "by_id")) ∨
    (∃ hits, hits ≠ [] ∧ fuzzy_resolve score roster q0 = (none, hits, "ambiguous")) ∨
    (∃ r, fuzzy_resolve score roster q0 = (some r, [], "by_name")) := by
  by_cases hq : pyStrip q0 = ""
  · exact Or.inl (by simp [fuzzy_resolve, hq])
  · by_cases h1 : (id_hits roster (pyStrip q0)).length = 1
    · obtain ⟨r, hr⟩ := List.length_eq_one.mp h1
      exact Or.inr (Or.inl ⟨r, by simp [fuzzy_resolve, hq, hr]⟩)
    · by_cases h2 : 1 < (id_hits roster (pyStrip q0)).length
      · refine Or.inr (Or.inr (Or.inl ⟨id_hits roster (pyStrip q0), ?_, by
          simp [fuzzy_resolve, hq, h1, h2]⟩))
        intro hnil
        rw [hnil] at h2
        simp at h2
      · by_cases hn : roster.map fullName = []
        · exact Or.inl (by simp [fuzzy_resolve, hq, h1, h2, hn])
        · rcases hE : extractOne (score (pyStrip q0)) (roster.map fullName) with _ | best
          · by_cases hc : fuzzyCands score roster (pyStrip q0) = []
            · exact Or.inl (by simp [fuzzy_resolve, hq, h1, h2, hn, hE, hc])
            · refine Or.inr (Or.inr (Or.inl ⟨_, hc, by simp [fuzzy_resolve, hq, h1, h2, hn, hE, hc]⟩))
          · by_cases h80 : 80 ≤ best.2.1
            · exact Or.inr (Or.inr (Or.inr ⟨roster.getD best.2.2 defaultPatient,
                by simp [fuzzy_resolve, hq, h1, h2, hn, hE, h80]⟩))
            · by_cases hc : fuzzyCands score roster (pyStrip q0) = []
              · exact Or.inl (by simp [fuzzy_resolve, hq, h1, h2, hn, hE, h80, hc])
              · exact Or.inr (Or.inr (Or.inl ⟨_, hc,
                  by simp [fuzzy_resolve, hq, h1, h2, hn, hE, h80, hc]⟩))

/-- C10: every resolver result has exactly one of the three shapes — a
resolved record with no candidates and reason `by_id`/`by_name`, no resolved
record with non-empty candidates and reason `ambiguous`, or no resolved
record, no candidates, and reason `none`; moreover the reason is `ambiguous`
exactly when the candidate list is non-empty. -/
theorem c10_result_shapes (score : String → String → Nat) (roster : List PatientRecord)
    (q0 : String) :
    ((∃ r, (fuzzy_resolve score roster q0).1 = some r ∧
        (fuzzy_resolve score roster q0).2.1 = [] ∧
        ((fuzzy_resolve score roster q0).2.2 = "by_id" ∨
          (fuzzy_resolve score roster q0).2.2 = "by_name")) ∨
      ((fuzzy_resolve score roster q0).1 = none ∧
        (fuzzy_resolve score roster q0).2.1 ≠ [] ∧
        (fuzzy_resolve score roster q0).2.2 = "ambiguous") ∨
      ((fuzzy_resolve score roster q0).1 = none ∧
        (fuzzy_resolve score roster q0).2.1 = [] ∧
        (fuzzy_resolve score roster q0).2.2 = "none")) ∧
    ((fuzzy_resolve score roster q0).2.2 = "ambiguous" ↔
      (fuzzy_resolve score roster q0).2.1 ≠ []) := by
  rcases fuzzy_resolve_cases score roster q0 with h | ⟨r, h⟩ | ⟨hits, hne, h⟩ | ⟨r, h⟩ <;>
    rw [h] <;> refine ⟨?_, ?_⟩
  · exact Or.inr (Or.inr ⟨rfl, rfl, rfl⟩)
  · simp
  · exact Or.inl ⟨r, rfl, rfl, Or.inl rfl⟩
  · simp
  · exact Or.inr (Or.inl ⟨rfl, hne, rfl⟩)
  · simpa using hne
  · exact Or.inl ⟨r, rfl, rfl, Or.inr rfl⟩
  · simp

/-! ### C4: classification-oracle failure falls back to general/0.5 -/

/-- C4: when the classification oracle fails (exception, timeout, malformed
output — the caught `except` branch), `analyze_query_with_slm` still returns
a usable decision for every query, roster and lock state: intent `general`,
confidence `0.5`, nothing resolved and no candidates. The embedding is a
total function, so no failure is ever propagated to the caller. -/
theorem c4_oracle_failure_fallback (score : String → String → Nat)
    (fb : String → List String) (query : String) (roster : List PatientRecord)
    (locked : Option PatientRecord) :
    (analyze_query_with_slm .failure score fb query roster locked).intent = "general" ∧
    (analyze_query_with_slm .failure score fb query roster locked).confidence = 1/2 ∧
    (analyze_query_with_slm .failure score fb query roster locked).resolved_patient = none ∧
    (analyze_query_with_slm .failure score fb query roster locked).resolved_patients = [] ∧
    (analyze_query_with_slm .failure score fb query roster locked).candidates = [] ∧
    (analyze_query_with_slm .failure score fb query roster locked).unresolved_refs = [] := by
  refine ⟨?_, ?_, ?_, ?_, ?_, ?_⟩ <;>
    simp [analyze_query_with_slm, routeInit, routing_decision, multiBranch, singleBranch]

/-! ### C8: bounded context payload and explicit empty placeholder -/

/-- C8: the number of context items joined into the payload never exceeds the
cap; for a multi-patient decision (at least two resolved patients) the cap is
`max 50 (n * 15)` — at least 15 items per patient and never below 50, always
above the single/general cap — while every other decision uses the fixed
smaller cap 20; and an empty context list renders as the non-empty
placeholder `"(no context)"` rather than the empty string. -/
theorem c8_context_cap_and_placeholder (ps : List PatientRecord) (ctx : List String) :
    ctx_block ps [] = "(no context)" ∧
    ctx_block ps [] ≠ "" ∧
    (included_context ps ctx).length ≤ max_context_chunks ps ∧
    (2 ≤ ps.length →
      max_context_chunks ps = max 50 (ps.length * 15) ∧
      15 * ps.length ≤ max_context_chunks ps ∧
      50 ≤ max_context_chunks ps ∧
      20 < max_context_chunks ps) ∧
    (ps.length < 2 → max_context_chunks ps = 20) := by
  refine ⟨rfl, ?_, ?_, ?_, ?_⟩
  · rw [show ctx_block ps [] = "(no context)" from rfl]
    decide
  · simp [included_context]
  · intro h2
    have hcap : max_context_chunks ps = max 50 (ps.length * 15) := by
      simp [max_context_chunks, h2]
    refine ⟨hcap, ?_, ?_, ?_⟩
    · rw [hcap, Nat.mul_comm]
      exact Nat.le_max_right _ _
    · rw [hcap]
      exact Nat.le_max_left _ _
    · rw [hcap]
      exact Nat.lt_of_lt_of_le (by decide) (Nat.le_max_left _ _)
  · intro h2
    have : ¬ 2 ≤ ps.length := by omega
    simp [max_context_chunks, this]

/-- Witness for C8 at a three-patient resolved list: the cap is 50 (the floor
wins over `3 * 15 = 45`). -/
theorem c8_witness :
    max_context_chunks [priya, meera, defaultPatient] =
      max 50 ([priya, meera, defaultPatient].length * 15) ∧
    15 * [priya, meera, defaultPatient].length ≤
      max_context_chunks [priya, meera, defaultPatient] ∧
    50 ≤ max_context_chunks [priya, meera, defaultPatient] ∧
    20 < max_context_chunks [priya, meera, defaultPatient] :=
  (c8_context_cap_and_placeholder [priya, meera, defaultPatient] []).2.2.2.1 (by decide)

/-! ### C7: roster deduplication, first occurrence wins -/

/-- One roster-building step keeps the patient ids pairwise distinct: a record
is only appended when its id is absent from the accumulator. -/
lemma rosterStep_pairwise (acc : List PatientRecord) (row : Option Row)
    (h : acc.Pairwise (fun a b => a.patient_id ≠ b.patient_id)) :
    (rosterStep acc row).Pairwise (fun a b => a.patient_id ≠ b.patient_id) := by
  unfold rosterStep
  by_cases h0 : rowPid row = ""
  · simpa [h0] using h
  · by_cases hmem : acc.any (fun r => r.patient_id == rowPid row)
    · simpa [h0, hmem] using h
    · simp only [h0, hmem, if_false, ite_false, Bool.false_eq_true, if_neg]
      rw [List.pairwise_append]
      refine ⟨h, List.pairwise_singleton _ _, ?_⟩
      intro a ha b hb
      simp only [List.mem_singleton] at hb
      subst hb
      intro hab
      apply hmem
      exact List.any_eq_true.mpr ⟨a, ha, by simpa [rowRecord] using hab⟩

/-- Folding the roster-building step over any row list preserves pairwise
distinctness of patient ids. -/
lemma build_pairwise (rows : List (Option Row)) :
    ∀ acc, acc.Pairwise (fun a b => a.patient_id ≠ b.patient_id) →
      (rows.foldl rosterStep acc).Pairwise (fun a b => a.patient_id ≠ b.patient_id) := by
  induction rows with
  | nil => intro acc h; simpa using h
  | cons row rest ih =>
    intro acc h
    rw [List.foldl_cons]
    exact ih _ (rosterStep_pairwise acc row h)

/-- Accumulator-generalised description of lookups in the built roster: a
patient id is found either in the accumulator or at the first input row
carrying that id. -/
lemma roster_find_aux (p : String) (hp : p ≠ "") (rows : List (Option Row)) :
    ∀ acc : List PatientRecord,
      (rows.foldl rosterStep acc).find? (fun r => r.patient_id == p) =
        (acc.find? (fun r => r.patient_id == p)).or
          ((rows.find? (fun row => rowPid row == p)).map rowRecord) := by
  induction rows with
  | nil => intro acc; simp
  | cons row rest ih =>
    intro acc
    rw [List.foldl_cons, ih]
    by_cases h0 : rowPid row = ""
    · have hQ : ¬ ((rowPid row == p) = true) := by
        simp only [beq_iff_eq, h0]
        exact fun h => hp h.symm
      rw [@List.find?_cons_of_neg (Option Row) (fun row => rowPid row == p) row rest hQ]
      have hstep : rosterStep acc row = acc := by simp [rosterStep, h0]
      rw [hstep]
    · by_cases hq : rowPid row = p
      · have hQ : (rowPid row == p) = true := beq_iff_eq.mpr hq
        rw [@List.find?_cons_of_pos (Option Row) (fun row => rowPid row == p) row rest hQ]
        by_cases hmem : acc.any (fun r => r.patient_id == rowPid row)
        · have hsome : (acc.find? (fun r => r.patient_id == p)).isSome := by
            rw [List.find?_isSome]
            obtain ⟨x, hx, hpx⟩ := List.any_eq_true.mp hmem
            exact ⟨x, hx, by rw [← hq]; exact hpx⟩
          obtain ⟨r, hr⟩ := Option.isSome_iff_exists.mp hsome
          have hstep : rosterStep acc row = acc := by simp [rosterStep, h0, hmem]
          rw [hstep, hr]
          rfl
        · have hstep : rosterStep acc row = acc ++ [rowRecord row] := by
            simp [rosterStep, h0, hmem]
          have haccnone : acc.find? (fun r => r.patient_id == p) = none := by
            rw [List.find?_eq_none]
            intro x hx hPx
            apply hmem
            exact List.any_eq_true.mpr ⟨x, hx, by rw [hq]; exact hPx⟩
          have hsingle : [rowRecord row].find? (fun r => r.patient_id == p) =
              some (rowRecord row) :=
            List.find?_cons_of_pos _ (by simpa [rowRecord] using hQ)
          rw [hstep, List.find?_append, haccnone, hsingle]
          rfl
      · have hQ : ¬ ((rowPid row == p) = true) := by
          simp only [beq_iff_eq]
          exact hq
        rw [@List.find?_cons_of_neg (Option Row) (fun row => rowPid row == p) row rest hQ]
        by_cases hmem : acc.any (fun r => r.patient_id == rowPid row)
        · have hstep : rosterStep acc row = acc := by simp [rosterStep, h0, hmem]
          rw [hstep]
        · have hstep : rosterStep acc row = acc ++ [rowRecord row] := by
            simp [rosterStep, h0, hmem]
          have hsingle : [rowRecord row].find? (fun r => r.patient_id == p) = none := by
            rw [List.find?_eq_none]
            intro x hx
            simp only [List.mem_singleton] at hx
            subst hx
            simpa [rowRecord] using hq
          rw [hstep, List.find?_append, hsingle, Option.or_none]

/-- C7: the built roster never contains two entries with the same
`patient_id`, and looking any non-empty id up in it yields exactly the record
built from the first input row carrying that id (first occurrence wins). -/
theorem c7_roster_first_wins (rows : List (Option Row)) :
    (build_roster_from_supabase rows).Pairwise (fun a b => a.patient_id ≠ b.patient_id) ∧
    ∀ p, p ≠ "" →
      (build_roster_from_supabase rows).find? (fun r => r.patient_id == p) =
        (rows.find? (fun row => rowPid row == p)).map rowRecord := by
  constructor
  · exact build_pairwise rows [] List.Pairwise.nil
  · intro p hp
    rw [build_roster_from_supabase, roster_find_aux p hp rows []]
    simp

/-- Input rows with a duplicated patient id (under an alias spelling), an id
field missing, and a null metadata object. -/
def demoRows : List (Option Row) :=
  [some [("patient_id", "IVF001"), ("first_name", "Priya"),
         ("last_name", "Sharma"), ("dob", "1990-01-01")],
   some [("Patient_Id", "IVF001"), ("First_Name", "Impostor"),
         ("Last_Name", "X"), ("DOB", "1999-09-09")],
   none,
   some [("first_name", "NoId")],
   some [("patient_id", "IVF002"), ("first_name", "Meera"),
         ("last_name", "Iyer"), ("dob", "1991-02-02")]]

/-- Witness for C7: on rows duplicating id `IVF001`, the roster keeps the
first occurrence's field values. -/
theorem c7_witness :
    List.Pairwise (fun a b => a.patient_id ≠ b.patient_id)
      (build_roster_from_supabase demoRows) ∧
    (build_roster_from_supabase demoRows).find? (fun r => r.patient_id == "IVF001") =
      (demoRows.find? (fun row => rowPid row == "IVF001")).map rowRecord :=
  ⟨(c7_roster_first_wins demoRows).1,
    (c7_roster_first_wins demoRows).2 "IVF001" (by decide)⟩

/-! ### C6: per-patient chunk dedup by identity -/

/-- The pass-by-pass dedup fold equals first-occurrence filtering of the
stream, the seen set ending up as exactly the identities of the kept
chunks. -/
lemma dedupFold_eq_firstOccurrences (pname : String) (hits : List Chunk) :
    ∀ seen acc,
      dedupFold pname (seen, acc) hits =
        (seen ++ (firstOccurrences pname hits seen).map (fun hp => chunkIdentity hp.1),
          acc ++ firstOccurrences pname hits seen) := by
  induction hits with
  | nil => intro seen acc; simp [dedupFold, firstOccurrences]
  | cons h hs ih =>
    intro seen acc
    by_cases hc : chunkIdentity h ∈ seen
    · rw [show dedupFold pname (seen, acc) (h :: hs) = dedupFold pname (seen, acc) hs by
        simp [dedupFold, hc]]
      rw [ih]
      simp [firstOccurrences, hc]
    · rw [show dedupFold pname (seen, acc) (h :: hs) =
          dedupFold pname (seen ++ [chunkIdentity h], acc ++ [(h, pname)]) hs by
        simp [dedupFold, hc]]
      rw [ih]
      simp [firstOccurrences, hc, List.append_assoc]

/-- The kept chunks of a first-occurrence pass have pairwise-distinct
identities, none of them already in the incoming seen set. -/
lemma firstOccurrences_nodup (pname : String) (hits : List Chunk) :
    ∀ seen,
      ((firstOccurrences pname hits seen).map (fun hp => chunkIdentity hp.1)).Nodup ∧
      ∀ x ∈ (firstOccurrences pname hits seen).map (fun hp => chunkIdentity hp.1), x ∉ seen := by
  induction hits with
  | nil => intro seen; simp [firstOccurrences]
  | cons h hs ih =>
    intro seen
    by_cases hc : chunkIdentity h ∈ seen
    · simpa [firstOccurrences, hc] using ih seen
    · obtain ⟨ihn, ihs⟩ := ih (seen ++ [chunkIdentity h])
      refine ⟨?_, ?_⟩
      · simp only [firstOccurrences, hc, if_false, ite_false, List.map_cons, List.nodup_cons]
        refine ⟨fun hmem => ?_, ihn⟩
        exact ihs _ hmem (by simp)
      · intro x hx
        simp only [firstOccurrences, hc, if_false, ite_false, List.map_cons,
          List.mem_cons] at hx
        rcases hx with rfl | hx
        · exact hc
        · intro hxs
          exact ihs x hx (by simp [hxs])

/-- The seen set only grows along the dedup fold. -/
lemma dedupFold_seen_mono (pname : String) (hits : List Chunk) :
    ∀ st : List String × List (Chunk × String), ∀ cid ∈ st.1,
      cid ∈ (dedupFold pname st hits).1 := by
  induction hits with
  | nil => intro st cid hcid; simpa [dedupFold] using hcid
  | cons h hs ih =>
    intro st cid hcid
    rw [show dedupFold pname st (h :: hs) =
        dedupFold pname
          (if chunkIdentity h ∈ st.1 then st
            else (st.1 ++ [chunkIdentity h], st.2 ++ [(h, pname)])) hs by
      simp [dedupFold]]
    apply ih
    split
    · exact hcid
    · simp [hcid]

/-- After folding a stream of hits, every identity of the stream is in the
seen set. -/
lemma dedupFold_stream_seen (pname : String) (hits : List Chunk) :
    ∀ st : List String × List (Chunk × String), ∀ h ∈ hits,
      chunkIdentity h ∈ (dedupFold pname st hits).1 := by
  induction hits with
  | nil => intro st h hh; simp at hh
  | cons h hs ih =>
    intro st g hg
    rw [show dedupFold pname st (h :: hs) =
        dedupFold pname
          (if chunkIdentity h ∈ st.1 then st
            else (st.1 ++ [chunkIdentity h], st.2 ++ [(h, pname)])) hs by
      simp [dedupFold]]
    rcases List.mem_cons.mp hg with rfl | hg
    · apply dedupFold_seen_mono
      split
      · assumption
      · simp
    · exact ih _ g hg

/-- A pass whose chunk identities are all already seen changes nothing. -/
lemma dedupFold_absorb (pname : String) (hits : List Chunk) :
    ∀ st : List String × List (Chunk × String),
      (∀ h ∈ hits, chunkIdentity h ∈ st.1) → dedupFold pname st hits = st := by
  induction hits with
  | nil => intro st _; simp [dedupFold]
  | cons h hs ih =>
    intro st hall
    rw [show dedupFold pname st (h :: hs) =
        dedupFold pname
          (if chunkIdentity h ∈ st.1 then st
            else (st.1 ++ [chunkIdentity h], st.2 ++ [(h, pname)])) hs by
      simp [dedupFold]]
    rw [if_pos (hall h (by simp))]
    exact ih st (fun g hg => hall g (by simp [hg]))

/-- Folding the dedup pass by pass is folding it over the concatenated
stream. -/
lemma patient_hits_flatten (pname : String) (passes : List (List Chunk)) :
    ∀ st, passes.foldl (dedupFold pname) st = dedupFold pname st passes.flatten := by
  induction passes with
  | nil => intro st; simp [dedupFold]
  | cons pass rest ih =>
    intro st
    rw [List.foldl_cons, ih, List.flatten_cons]
    unfold dedupFold
    rw [List.foldl_append]

/-- C6: within one patient's merged retrieval set no two kept chunks share a
chunk identity; the merge equals first-occurrence filtering of the
concatenated pass stream (first-seen order across passes preserved); and
appending a pass that already occurred — running the same retrieval phrase
twice — leaves the merged set unchanged. -/
theorem c6_chunk_identity_dedup (pname : String) (passes : List (List Chunk)) :
    ((patient_hits pname passes).map (fun hp => chunkIdentity hp.1)).Nodup ∧
    patient_hits pname passes = firstOccurrences pname passes.flatten [] ∧
    ∀ pass ∈ passes, patient_hits pname (passes ++ [pass]) = patient_hits pname passes := by
  have hmain : patient_hits pname passes = firstOccurrences pname passes.flatten [] := by
    unfold patient_hits
    rw [patient_hits_flatten, dedupFold_eq_firstOccurrences]
    simp
  refine ⟨?_, hmain, ?_⟩
  · rw [hmain]
    exact (firstOccurrences_nodup pname passes.flatten []).1
  · intro pass hpass
    unfold patient_hits
    rw [List.foldl_append, List.foldl_cons, List.foldl_nil, patient_hits_flatten]
    rw [dedupFold_absorb pname pass]
    intro h hh
    exact dedupFold_stream_seen pname passes.flatten ([], []) h
      (List.mem_flatten.mpr ⟨pass, hpass, hh⟩)

/-- Concrete chunks for the C6 witness. -/
def chunkA : Chunk := { id := some "c1", content := "Height 172 cm", metadata := "m1" }

/-- Concrete chunk without a stable id (prefix identity) for the C6 witness. -/
def chunkB : Chunk := { id := none, content := "Weight 60 kg", metadata := "m2" }

/-- One concrete retrieval pass for the C6 witness. -/
def demoPass : List Chunk := [chunkA, chunkB]

/-- The same retrieval phrase run twice for the C6 witness. -/
def demoPasses : List (List Chunk) := [demoPass, demoPass]

/-- Witness for C6: re-running the identical pass adds nothing to the merged
set. -/
theorem c6_witness :
    patient_hits "Priya Sharma" (demoPasses ++ [demoPass]) =
      patient_hits "Priya Sharma" demoPasses :=
  (c6_chunk_identity_dedup "Priya Sharma" demoPasses).2.2 demoPass (by decide)

/-! ### C2: round-robin interleaving with summary header -/

/-- The inner interleaving loop (`for patient in patients` at a fixed round
index) is an accumulator-append of the per-round emissions. -/
lemma interleave_inner_eq (pc : String → List (Chunk × String)) (i : Nat)
    (patients : List PatientRecord) :
    ∀ acc : List String,
      patients.foldl
        (fun acc2 p =>
          match (pc (displayName p))[i]? with
          | some hp => acc2 ++ ["[" ++ hp.2 ++ "]: " ++ hp.1.content]
          | none => acc2)
        acc =
      acc ++ patients.filterMap
        (fun p => ((pc (displayName p))[i]?).map
          (fun hp => "[" ++ hp.2 ++ "]: " ++ hp.1.content)) := by
  induction patients with
  | nil => intro acc; simp
  | cons p ps ih =>
    intro acc
    rw [List.foldl_cons]
    cases hpc : (pc (displayName p))[i]? with
    | none => simp [hpc, ih, List.filterMap_cons]
    | some hp => simp [hpc, ih, List.filterMap_cons, List.append_assoc]

/-- An accumulator-append fold over a list is the accumulator followed by the
concatenation of the per-element contributions. -/
lemma foldl_append_flatMap {α β : Type} (F : α → List β) (l : List α) :
    ∀ acc : List β,
      l.foldl (fun acc x => acc ++ F x) acc = acc ++ l.flatMap F := by
  induction l with
  | nil => intro acc; simp
  | cons x xs ih =>
    intro acc
    rw [List.foldl_cons, ih, List.flatMap_cons, List.append_assoc]

/-- The equality of the code interleaving with the specification round robin,
under well-formed stored tags. -/
lemma interleaved_context_eq_spec (patients : List PatientRecord)
    (pc : String → List (Chunk × String)) (hw : WellTagged patients pc) :
    interleaved_context patients pc =
      summaryLine patients pc :: roundRobinSpec patients pc := by
  unfold interleaved_context roundRobinSpec
  congr 1
  simp only [interleave_inner_eq]
  rw [foldl_append_flatMap]
  rw [List.nil_append]
  have hfun : ∀ i : Nat,
      patients.filterMap
        (fun p => ((pc (displayName p))[i]?).map
          (fun hp => "[" ++ hp.2 ++ "]: " ++ hp.1.content)) =
      patients.filterMap
        (fun p => ((pc (displayName p))[i]?).map
          (fun hp => "[" ++ displayName p ++ "]: " ++ hp.1.content)) := by
    intro i
    apply List.filterMap_congr
    intro p hp
    cases hpc : (pc (displayName p))[i]? with
    | none => rfl
    | some c =>
      have hc : c ∈ pc (displayName p) := List.getElem?_mem hpc
      simp only [Option.map]
      rw [hw p hp c hc]
  rw [funext hfun]

/-- Patient A of the interleaving example. -/
def alice : PatientRecord :=
  { patient_id := "IVF010", first_name := "Alice", last_name := "Anand", dob := "2000-01-01" }

/-- Patient B of the interleaving example. -/
def bala : PatientRecord :=
  { patient_id := "IVF011", first_name := "Bala", last_name := "Basu", dob := "2000-02-02" }

/-- Patient C of the interleaving example (zero chunks). -/
def chitra : PatientRecord :=
  { patient_id := "IVF012", first_name := "Chitra", last_name := "Chopra", dob := "2000-03-03" }

/-- The example patient list A, B, C. -/
def abcPatients : List PatientRecord := [alice, bala, chitra]

/-- A chunk with a stable id and the given content. -/
def mkChunk (i c : String) : Chunk := { id := some i, content := c, metadata := "m" }

/-- The example chunk store: A has 3 chunks, B has 1, C has 0. -/
def abcPc : String → List (Chunk × String) := fun n =>
  if n = "Alice Anand" then
    [(mkChunk "a0" "a0", "Alice Anand"), (mkChunk "a1" "a1", "Alice Anand"),
      (mkChunk "a2" "a2", "Alice Anand")]
  else if n = "Bala Basu" then [(mkChunk "b0" "b0", "Bala Basu")]
  else []

/-- C2: the assembled multi-patient context is exactly one per-patient
chunk-count summary line followed by the chunks in round-robin order — index
0 of every patient in resolved-patient order, then index 1, and so on,
skipping exhausted patients — each emitted chunk tagged with its owning
patient's display name (the stored tags being the owners' names, as the
construction guarantees); in particular for A with 3 chunks, B with 1 and C
with 0 the body order is A0, B0, A1, A2 and C's zero count appears only in
the summary line. -/
theorem c2_interleaving_round_robin :
    (∀ (patients : List PatientRecord) (pc : String → List (Chunk × String)),
      WellTagged patients pc →
        interleaved_context patients pc =
          summaryLine patients pc :: roundRobinSpec patients pc) ∧
    interleaved_context abcPatients abcPc =
      ["CONTEXT SUMMARY: Alice Anand: 3 data chunks | Bala Basu: 1 data chunks | Chitra Chopra: 0 data chunks\n\n",
        "[Alice Anand]: a0", "[Bala Basu]: b0", "[Alice Anand]: a1", "[Alice Anand]: a2"] :=
  ⟨interleaved_context_eq_spec, by decide⟩

/-- Witness for C2: the refinement applied to the concrete A/B/C store, whose
tags are well formed. -/
theorem c2_witness :
    interleaved_context abcPatients abcPc =
      summaryLine abcPatients abcPc :: roundRobinSpec abcPatients abcPc :=
  c2_interleaving_round_robin.1 abcPatients abcPc (by decide)

/-! ### C1: partial multi-patient resolution -/

/-- The single-patient refinement leaves any decision whose intent is not
`patient_specific` untouched. -/
lemma singleBranch_skip (score : String → String → Nat) (roster : List PatientRecord)
    (locked : Option PatientRecord) (result : RouteResult)
    (h : result.intent ≠ "patient_specific") :
    singleBranch score roster locked result = result := by
  unfold singleBranch
  rw [if_neg h]

/-- The empty regex-fallback extraction (no capitalised name sequences in the
query). -/
def noFallback : String → List String := fun _ => []

/-- Oracle output naming three patients, of which only two exist in
`demoRoster`. -/
def oracleDataC1 : OracleOut :=
  { intent := some "multi_patient"
    patient_reference := some "IVF001"
    patient_references := some ["IVF001", "IVF002", "Zed"]
    confidence := some 1 }

/-- The oracle call wrapping `oracleDataC1`. -/
def oracleC1 : OracleCall := .ok oracleDataC1

/-- Counterexample to C1 as stated: a multi-patient query naming three
patients of which exactly two resolve is routed as `multi_patient` over the
resolved subset (with the unresolved reference merely recorded), not as
`patient_specific_not_found`. -/
theorem c1_counterexample :
    (analyze_query_with_slm oracleC1 zeroScore noFallback
        "Compare IVF001, IVF002 and Zed" demoRoster none).intent = "multi_patient" ∧
    (analyze_query_with_slm oracleC1 zeroScore noFallback
        "Compare IVF001, IVF002 and Zed" demoRoster none).intent ≠
      "patient_specific_not_found" ∧
    (analyze_query_with_slm oracleC1 zeroScore noFallback
        "Compare IVF001, IVF002 and Zed" demoRoster none).resolved_patients =
      [priya, meera] ∧
    (analyze_query_with_slm oracleC1 zeroScore noFallback
        "Compare IVF001, IVF002 and Zed" demoRoster none).unresolved_refs = ["Zed"] := by
  decide

/-- C1 (amended): for an oracle-classified multi-patient query whose named
references (at least two, still at least two after dedup) partially resolve,
the decision is `patient_specific_not_found` with the unresolved reference
strings populated exactly when fewer than two references resolve; when two
or more resolve, the classifier proceeds with `multi_patient` over the
resolved subset, recording the unresolved references in `unresolved_refs`. -/
theorem c1_partial_resolution (o : OracleOut) (score : String → String → Nat)
    (fb : String → List String) (query : String) (roster : List PatientRecord)
    (locked : Option PatientRecord)
    (h1 : o.intent = some "multi_patient")
    (h2 : 2 ≤ (o.patient_references.getD []).length)
    (h3 : 2 ≤ (dedupRefs (o.patient_references.getD [])).length) :
    (2 ≤ (resolveRefs score roster (dedupRefs (o.patient_references.getD []))).1.length →
      (analyze_query_with_slm (.ok o) score fb query roster locked).intent =
        "multi_patient" ∧
      (analyze_query_with_slm (.ok o) score fb query roster locked).resolved_patients =
        (resolveRefs score roster (dedupRefs (o.patient_references.getD []))).1 ∧
      (analyze_query_with_slm (.ok o) score fb query roster locked).unresolved_refs =
        (resolveRefs score roster (dedupRefs (o.patient_references.getD []))).2) ∧
    ((resolveRefs score roster (dedupRefs (o.patient_references.getD []))).1.length < 2 →
      (analyze_query_with_slm (.ok o) score fb query roster locked).intent =
        "patient_specific_not_found" ∧
      (analyze_query_with_slm (.ok o) score fb query roster locked).resolved_patients = [] ∧
      (analyze_query_with_slm (.ok o) score fb query roster locked).unresolved_refs =
        (resolveRefs score roster (dedupRefs (o.patient_references.getD []))).2) := by
  have hne : ¬ ((o.patient_references.getD []).length < 2) := by omega
  constructor
  · intro hge
    have hmb : multiBranch score fb query roster (routeInit (.ok o)) =
        { routeInit (.ok o) with
            intent := "multi_patient"
            resolved_patients :=
              (resolveRefs score roster (dedupRefs (o.patient_references.getD []))).1
            unresolved_refs :=
              (resolveRefs score roster (dedupRefs (o.patient_references.getD []))).2 } := by
      unfold multiBranch
      simp [routeInit, routing_decision, h1, hne, h3, hge]
    rw [analyze_query_with_slm, hmb,
      singleBranch_skip _ _ _ _ (by simp)]
    exact ⟨rfl, rfl, rfl⟩
  · intro hlt
    have hge' : ¬ (2 ≤ (resolveRefs score roster
        (dedupRefs (o.patient_references.getD []))).1.length) := by omega
    have hmb : multiBranch score fb query roster (routeInit (.ok o)) =
        { routeInit (.ok o) with
            intent := "patient_specific_not_found"
            unresolved_refs :=
              (resolveRefs score roster (dedupRefs (o.patient_references.getD []))).2 } := by
      unfold multiBranch
      simp [routeInit, routing_decision, h1, hne, h3, hge']
    rw [analyze_query_with_slm, hmb,
      singleBranch_skip _ _ _ _ (by simp)]
    simp [routeInit, routing_decision]

/-- Witness for C1 (amended) at the three-reference, two-resolvable input:
two references resolve, so the decision is `multi_patient` over the resolved
subset with `"Zed"` recorded as unresolved. -/
theorem c1_witness :
    (analyze_query_with_slm (.ok oracleDataC1) zeroScore noFallback
        "Compare IVF001, IVF002 and Zed" demoRoster none).intent = "multi_patient" ∧
    (analyze_query_with_slm (.ok oracleDataC1) zeroScore noFallback
        "Compare IVF001, IVF002 and Zed" demoRoster none).resolved_patients =
      (resolveRefs zeroScore demoRoster
        (dedupRefs (oracleDataC1.patient_references.getD []))).1 ∧
    (analyze_query_with_slm (.ok oracleDataC1) zeroScore noFallback
        "Compare IVF001, IVF002 and Zed" demoRoster none).unresolved_refs =
      (resolveRefs zeroScore demoRoster
        (dedupRefs (oracleDataC1.patient_references.getD []))).2 :=
  (c1_partial_resolution oracleDataC1 zeroScore noFallback
    "Compare IVF001, IVF002 and Zed" demoRoster none rfl (by decide) (by decide)).1
    (by decide)

/-! ### C3: fuzzy-name thresholds 80 (resolve) and 60 (candidates) -/

/-- Modelled from the spec: the best fuzzy score of the reference against the
full names of all roster entries (`0` for an empty roster; rapidfuzz scores
are non-negative). -/
def maxScore (f : String → Nat) (names : List String) : Nat :=
  (names.map f).foldr max 0

/-- Every choice scores at most the maximum. -/
lemma le_maxScore (f : String → Nat) (names : List String) (x : String) (hx : x ∈ names) :
    f x ≤ maxScore f names := by
  induction names with
  | nil => simp at hx
  | cons n ns ih =>
    rcases List.mem_cons.mp hx with rfl | hx
    · exact Nat.le_max_left _ _
    · exact Nat.le_trans (ih hx) (Nat.le_max_right _ _)

/-- Any upper bound of all choice scores bounds the maximum. -/
lemma maxScore_le (f : String → Nat) (names : List String) (s : Nat)
    (h : ∀ x ∈ names, f x ≤ s) : maxScore f names ≤ s := by
  induction names with
  | nil => exact Nat.zero_le s
  | cons n ns ih =>
    refine Nat.max_le.mpr ⟨h n (by simp), ih (fun x hx => h x (by simp [hx]))⟩

/-- Function `extractOne` returns `none` exactly on the empty choice list. -/
lemma extractOne_eq_none_iff (f : String → Nat) (names : List String) :
    extractOne f names = none ↔ names = [] := by
  induction names with
  | nil => simp [extractOne]
  | cons n ns ih =>
    simp only [extractOne]
    cases h : extractOne f ns with
    | none => simp
    | some p =>
      obtain ⟨m, s, i⟩ := p
      by_cases hle : s ≤ f n <;> simp [hle]

/-- The triple returned by `extractOne` carries its choice's score, indexes
that choice in the list, and its score bounds every choice's score. -/
lemma extractOne_spec (f : String → Nat) (names : List String) (b : String × Nat × Nat)
    (hb : extractOne f names = some b) :
    b.2.1 = f b.1 ∧ b.2.2 < names.length ∧ names.getD b.2.2 "" = b.1 ∧
    ∀ x ∈ names, f x ≤ b.2.1 := by
  induction names generalizing b with
  | nil => simp [extractOne] at hb
  | cons n ns ih =>
    rw [extractOne] at hb
    cases hrec : extractOne f ns with
    | none =>
      rw [hrec] at hb
      have hns : ns = [] := (extractOne_eq_none_iff f ns).mp hrec
      obtain rfl := Option.some.inj hb
      subst hns
      refine ⟨rfl, by simp, rfl, ?_⟩
      intro x hx
      simp only [List.mem_singleton] at hx
      subst hx
      exact Nat.le_refl _
    | some p =>
      obtain ⟨m, s, i⟩ := p
      rw [hrec] at hb
      have hb2 : (if s ≤ f n then some (n, f n, 0) else some (m, s, i + 1)) = some b := hb
      obtain ⟨hs, hi, hg, hall⟩ := ih (m, s, i) hrec
      by_cases hle : s ≤ f n
      · rw [if_pos hle] at hb2
        obtain rfl := Option.some.inj hb2
        refine ⟨rfl, by simp, rfl, ?_⟩
        intro x hx
        rcases List.mem_cons.mp hx with rfl | hx
        · exact Nat.le_refl _
        · exact Nat.le_trans (hall x hx) hle
      · rw [if_neg hle] at hb2
        obtain rfl := Option.some.inj hb2
        refine ⟨hs, by simpa using hi, hg, ?_⟩
        intro x hx
        rcases List.mem_cons.mp hx with rfl | hx
        · exact Nat.le_of_lt (Nat.lt_of_not_le hle)
        · exact hall x hx

/-- Members of the scored choice list are consistent `(choice, score, index)`
triples. -/
lemma scoredNames_mem (f : String → Nat) (names : List String)
    (t : String × Nat × Nat) (ht : t ∈ scoredNames f names) :
    t.2.2 < names.length ∧ names.getD t.2.2 "" = t.1 ∧ t.2.1 = f t.1 := by
  obtain ⟨i, hi, rfl⟩ := List.mem_map.mp ht
  have hilt : i < names.length := List.mem_range.mp hi
  exact ⟨hilt, rfl, rfl⟩

/-- Members of the ranked-and-truncated extraction come from the scored
choice list. -/
lemma extract_mem (f : String → Nat) (names : List String) (lim : Nat)
    (t : String × Nat × Nat) (ht : t ∈ extract f names lim) :
    t ∈ scoredNames f names := by
  unfold extract at ht
  exact (List.perm_insertionSort scoreGe (scoredNames f names)).mem_iff.mp
    (List.mem_of_mem_take ht)

/-- Every candidate produced by the fuzzy step corresponds to a roster index
whose full name scores at least 60. -/
lemma fuzzyCands_mem (score : String → String → Nat) (roster : List PatientRecord)
    (q : String) (c : PatientRecord) (hc : c ∈ fuzzyCands score roster q) :
    ∃ i, i < roster.length ∧ c = roster.getD i defaultPatient ∧
      60 ≤ score q (fullName c) := by
  unfold fuzzyCands at hc
  obtain ⟨t, ht, rfl⟩ := List.mem_map.mp hc
  obtain ⟨htake, h60⟩ := List.mem_filter.mp ht
  have h60' : 60 ≤ t.2.1 := of_decide_eq_true h60
  obtain ⟨hlt, hget, hsc⟩ := scoredNames_mem _ _ t (extract_mem _ _ _ t htake)
  have hlen : (roster.map fullName).length = roster.length := List.length_map _ _
  have hlt' : t.2.2 < roster.length := by rw [hlen] at hlt; exact hlt
  refine ⟨t.2.2, hlt', rfl, ?_⟩
  have hname : fullName (roster.getD t.2.2 defaultPatient) = t.1 := by
    rw [← hget]
    rw [List.getD_eq_getElem?_getD, List.getD_eq_getElem?_getD, List.getElem?_map]
    rw [List.getElem?_eq_getElem hlt']
    rfl
  rw [hname, ← hsc]
  exact h60'

/-- The candidate list never exceeds five entries. -/
lemma fuzzyCands_length_le (score : String → String → Nat) (roster : List PatientRecord)
    (q : String) : (fuzzyCands score roster q).length ≤ 5 := by
  unfold fuzzyCands extract
  rw [List.length_map]
  exact Nat.le_trans (List.length_filter_le _ _) (List.length_take_le _ _)

/-- A `getD` at an in-range index is a member. -/
lemma getD_mem_of_lt {α : Type} (l : List α) (n : Nat) (d : α) (h : n < l.length) :
    l.getD n d ∈ l := by
  rw [List.getD_eq_getElem?_getD, List.getElem?_eq_getElem h]
  exact List.getElem_mem h

/-- If some roster entry's full name scores at least 60, the candidate list
is non-empty (the top-ranked entry passes the 60 filter and survives the
five-entry truncation). -/
lemma fuzzyCands_ne_nil (score : String → String → Nat) (roster : List PatientRecord)
    (q : String) (r : PatientRecord) (hr : r ∈ roster)
    (h60 : 60 ≤ score q (fullName r)) : fuzzyCands score roster q ≠ [] := by
  have hrname : fullName r ∈ roster.map fullName := List.mem_map_of_mem fullName hr
  obtain ⟨j, hj, hjg⟩ := List.mem_iff_getElem.mp hrname
  have hentry : ((roster.map fullName).getD j "", score q ((roster.map fullName).getD j ""), j) ∈
      scoredNames (score q) (roster.map fullName) :=
    List.mem_map_of_mem _ (List.mem_range.mpr hj)
  have hescore : 60 ≤ score q ((roster.map fullName).getD j "") := by
    rw [List.getD_eq_getElem?_getD, List.getElem?_eq_getElem hj]
    simpa [hjg] using h60
  cases hs : List.insertionSort scoreGe (scoredNames (score q) (roster.map fullName)) with
  | nil =>
    exfalso
    have := (List.perm_insertionSort scoreGe
      (scoredNames (score q) (roster.map fullName))).mem_iff.mpr hentry
    rw [hs] at this
    simp at this
  | cons t0 rest =>
    have hsorted := List.sorted_insertionSort scoreGe
      (scoredNames (score q) (roster.map fullName))
    rw [hs] at hsorted
    have hemem : ((roster.map fullName).getD j "", score q ((roster.map fullName).getD j ""), j) ∈
        t0 :: rest := by
      rw [← hs]
      exact (List.perm_insertionSort scoreGe _).mem_iff.mpr hentry
    have ht0 : 60 ≤ t0.2.1 := by
      rcases List.mem_cons.mp hemem with heq | hemem'
      · rw [← heq]
        exact hescore
      · exact Nat.le_trans hescore (List.rel_of_sorted_cons hsorted _ hemem')
    intro hnil
    unfold fuzzyCands extract at hnil
    rw [hs, List.take_succ_cons] at hnil
    rw [List.map_eq_nil_iff, List.filter_eq_nil_iff] at hnil
    exact absurd (by simpa using ht0) (hnil t0 (by simp))

/-- If every roster entry's full name scores below 60, the candidate list is
empty. -/
lemma fuzzyCands_nil_of_lt60 (score : String → String → Nat) (roster : List PatientRecord)
    (q : String) (hall : ∀ r ∈ roster, score q (fullName r) < 60) :
    fuzzyCands score roster q = [] := by
  by_contra hne
  obtain ⟨c, hc⟩ := List.exists_mem_of_ne_nil _ hne
  obtain ⟨i, hi, hcg, h60⟩ := fuzzyCands_mem score roster q c hc
  have hcr : c ∈ roster := by
    rw [hcg]
    exact getD_mem_of_lt roster i defaultPatient hi
  exact absurd h60 (Nat.not_le.mpr (hall c hcr))

/-- Full name of the roster entry at an in-range index, through the mapped
name list. -/
lemma fullName_getD (roster : List PatientRecord) (i : Nat) (h : i < roster.length) :
    fullName (roster.getD i defaultPatient) = (roster.map fullName).getD i "" := by
  rw [List.getD_eq_getElem?_getD, List.getD_eq_getElem?_getD, List.getElem?_map,
    List.getElem?_eq_getElem h]
  rfl

/-- Counting over a list equals counting over its index range. -/
lemma countP_range_getD (p : String → Bool) (names : List String) :
    (List.range names.length).countP (fun i => p (names.getD i "")) = names.countP p := by
  induction names with
  | nil => rfl
  | cons n ns ih =>
    rw [List.length_cons, List.range_succ_eq_map, List.countP_cons]
    rw [List.countP_map]
    have hcomp : ((fun i => p ((n :: ns).getD i "")) ∘ (· + 1)) =
        (fun i => p (ns.getD i "")) := by
      funext i
      rfl
    rw [hcomp, ih, List.countP_cons]
    have hd : (n :: ns).getD 0 "" = n := rfl
    rw [hd]

/-- Completeness of the candidate list within the five-entry cap: when at
most five roster names reach score 60, every roster entry reaching 60
appears among the candidates. -/
lemma fuzzyCands_complete (score : String → String → Nat) (roster : List PatientRecord)
    (q : String)
    (hcount : (roster.map fullName).countP (fun nm => decide (60 ≤ score q nm)) ≤ 5)
    (i : Nat) (hi : i < roster.length)
    (h60 : 60 ≤ score q (fullName (roster.getD i defaultPatient))) :
    roster.getD i defaultPatient ∈ fuzzyCands score roster q := by
  have hlen : (roster.map fullName).length = roster.length := List.length_map _ _
  have hi' : i < (roster.map fullName).length := by rw [hlen]; exact hi
  have hentry : ((roster.map fullName).getD i "",
      score q ((roster.map fullName).getD i ""), i) ∈
      scoredNames (score q) (roster.map fullName) :=
    List.mem_map_of_mem _ (List.mem_range.mpr hi')
  have he60 : 60 ≤ score q ((roster.map fullName).getD i "") := by
    rw [← fullName_getD roster i hi]
    exact h60
  have hperm := List.perm_insertionSort scoreGe (scoredNames (score q) (roster.map fullName))
  have hsorted := List.sorted_insertionSort scoreGe (scoredNames (score q) (roster.map fullName))
  set l := List.insertionSort scoreGe (scoredNames (score q) (roster.map fullName)) with hl
  set e := ((roster.map fullName).getD i "", score q ((roster.map fullName).getD i ""), i)
    with hedef
  have heml : e ∈ l := hperm.mem_iff.mpr hentry
  have hcountl : l.countP (fun t => decide (60 ≤ t.2.1)) ≤ 5 := by
    rw [hperm.countP_eq]
    have : (scoredNames (score q) (roster.map fullName)).countP (fun t => decide (60 ≤ t.2.1)) =
        (List.range (roster.map fullName).length).countP
          (fun j => decide (60 ≤ score q ((roster.map fullName).getD j ""))) := by
      unfold scoredNames
      rw [List.countP_map]
      rfl
    rw [this, countP_range_getD (fun nm => decide (60 ≤ score q nm)) (roster.map fullName)]
    exact hcount
  have hetake : e ∈ l.take 5 := by
    by_contra hnot
    have hedrop : e ∈ l.drop 5 := by
      have : e ∈ l.take 5 ++ l.drop 5 := by rw [List.take_append_drop]; exact heml
      rcases List.mem_append.mp this with h | h
      · exact absurd h hnot
      · exact h
    have hpair : List.Pairwise scoreGe (l.take 5 ++ l.drop 5) := by
      rw [List.take_append_drop]
      exact hsorted
    obtain ⟨-, -, hcross⟩ := List.pairwise_append.mp hpair
    have htakeall : ∀ x ∈ l.take 5, decide (60 ≤ x.2.1) = true := by
      intro x hx
      have : scoreGe x e := hcross x hx e hedrop
      exact decide_eq_true (Nat.le_trans he60 this)
    have hlenlt : 5 < l.length := by
      have h1 : 0 < (l.drop 5).length := List.length_pos.mpr
        (List.ne_nil_of_mem hedrop)
      rw [List.length_drop] at h1
      omega
    have htklen : (l.take 5).length = 5 := by
      rw [List.length_take]
      omega
    have hctake : (l.take 5).countP (fun t => decide (60 ≤ t.2.1)) = 5 := by
      rw [(List.countP_eq_length).mpr htakeall, htklen]
    have hcdrop : 0 < (l.drop 5).countP (fun t => decide (60 ≤ t.2.1)) :=
      List.countP_pos_iff.mpr ⟨e, hedrop, decide_eq_true he60⟩
    have : l.countP (fun t => decide (60 ≤ t.2.1)) =
        (l.take 5).countP (fun t => decide (60 ≤ t.2.1)) +
        (l.drop 5).countP (fun t => decide (60 ≤ t.2.1)) := by
      rw [← List.countP_append, List.take_append_drop]
    omega
  unfold fuzzyCands
  refine List.mem_map.mpr ⟨e, List.mem_filter.mpr ⟨?_, decide_eq_true he60⟩, rfl⟩
  unfold extract
  exact hetake

/-- C3: with no id-substring hits, the fuzzy step resolves `by_name` (with no
candidates) exactly when the best full-name score reaches 80 — the resolved
record attaining that best score, so a record scoring 79 is never promoted —
and below 80 nothing resolves: the candidate list holds at most 5 entries,
every candidate scores at least 60 (records below 60 are dropped), the
reason is `ambiguous` with a non-empty candidate list whenever some entry
reaches 60, and the candidate list is empty with reason `none` when no entry
does. -/
theorem c3_fuzzy_thresholds (score : String → String → Nat) (roster : List PatientRecord)
    (q0 : String) (hq : pyStrip q0 ≠ "") (hid : id_hits roster (pyStrip q0) = [])
    (hr : roster ≠ []) :
    (80 ≤ maxScore (score (pyStrip q0)) (roster.map fullName) →
      (fuzzy_resolve score roster q0).2.2 = "by_name" ∧
      (fuzzy_resolve score roster q0).2.1 = [] ∧
      ∃ r, (fuzzy_resolve score roster q0).1 = some r ∧
        score (pyStrip q0) (fullName r) =
          maxScore (score (pyStrip q0)) (roster.map fullName)) ∧
    (maxScore (score (pyStrip q0)) (roster.map fullName) < 80 →
      (fuzzy_resolve score roster q0).1 = none ∧
      (fuzzy_resolve score roster q0).2.1.length ≤ 5 ∧
      (∀ c ∈ (fuzzy_resolve score roster q0).2.1,
        60 ≤ score (pyStrip q0) (fullName c)) ∧
      ((∃ r ∈ roster, 60 ≤ score (pyStrip q0) (fullName r)) →
        (fuzzy_resolve score roster q0).2.2 = "ambiguous" ∧
        (fuzzy_resolve score roster q0).2.1 ≠ []) ∧
      ((∀ r ∈ roster, score (pyStrip q0) (fullName r) < 60) →
        (fuzzy_resolve score roster q0).2.1 = [] ∧
        (fuzzy_resolve score roster q0).2.2 = "none") ∧
      ((roster.map fullName).countP (fun nm => decide (60 ≤ score (pyStrip q0) nm)) ≤ 5 →
        ∀ i, i < roster.length →
          60 ≤ score (pyStrip q0) (fullName (roster.getD i defaultPatient)) →
          roster.getD i defaultPatient ∈ (fuzzy_resolve score roster q0).2.1)) := by
  have hn : roster.map fullName ≠ [] := by
    simpa [List.map_eq_nil_iff] using hr
  cases hE : extractOne (score (pyStrip q0)) (roster.map fullName) with
  | none => exact absurd ((extractOne_eq_none_iff _ _).mp hE) hn
  | some b =>
    obtain ⟨hs, hilt, hget, hall⟩ := extractOne_spec _ _ b hE
    have hb1mem : b.1 ∈ roster.map fullName := by
      rw [← hget]
      exact getD_mem_of_lt _ _ _ hilt
    have hbmax : b.2.1 = maxScore (score (pyStrip q0)) (roster.map fullName) := by
      refine Nat.le_antisymm ?_ (maxScore_le _ _ _ hall)
      rw [hs]
      exact le_maxScore _ _ _ hb1mem
    have hlen : (roster.map fullName).length = roster.length := List.length_map _ _
    have hilt' : b.2.2 < roster.length := by rw [hlen] at hilt; exact hilt
    constructor
    · intro h80
      have h80b : 80 ≤ b.2.1 := by rw [hbmax]; exact h80
      have hres : fuzzy_resolve score roster q0 =
          (some (roster.getD b.2.2 defaultPatient), [], "by_name") := by
        simp [fuzzy_resolve, hq, hid, hn, hE, h80b]
      rw [hres]
      refine ⟨rfl, rfl, roster.getD b.2.2 defaultPatient, rfl, ?_⟩
      rw [fullName_getD roster b.2.2 hilt', hget, ← hs, hbmax]
    · intro h80
      have h80b : ¬ (80 ≤ b.2.1) := by rw [hbmax]; omega
      by_cases hcn : fuzzyCands score roster (pyStrip q0) = []
      · have hres : fuzzy_resolve score roster q0 = (none, [], "none") := by
          simp [fuzzy_resolve, hq, hid, hn, hE, h80b, hcn]
        rw [hres]
        refine ⟨rfl, by simp, by simp, ?_, fun _ => ⟨rfl, rfl⟩, ?_⟩
        · rintro ⟨r, hrr, h60⟩
          exact absurd hcn (fuzzyCands_ne_nil score roster (pyStrip q0) r hrr h60)
        · intro _ i hi h60
          exact absurd hcn (fuzzyCands_ne_nil score roster (pyStrip q0)
            (roster.getD i defaultPatient) (getD_mem_of_lt roster i defaultPatient hi) h60)
      · have hres : fuzzy_resolve score roster q0 =
            (none, fuzzyCands score roster (pyStrip q0), "ambiguous") := by
          simp [fuzzy_resolve, hq, hid, hn, hE, h80b, hcn]
        rw [hres]
        refine ⟨rfl, fuzzyCands_length_le _ _ _, ?_, fun _ => ⟨rfl, hcn⟩, ?_, ?_⟩
        · intro c hc
          obtain ⟨i, hi, hcg, h60⟩ := fuzzyCands_mem score roster (pyStrip q0) c hc
          exact h60
        · intro hallsc
          exact absurd (fuzzyCands_nil_of_lt60 score roster (pyStrip q0) hallsc) hcn
        · intro hcount i hi h60
          exact fuzzyCands_complete score roster (pyStrip q0) hcount i hi h60

/-- A scorer that rates the name `"Priya Sharma"` exactly at the 80 threshold
and everything else at 0. -/
def score80 : String → String → Nat := fun _ n => if n = "Priya Sharma" then 80 else 0

/-- Witness for C3: with the best name score exactly 80 (and no id hits), the
misspelled reference `"Pria Sharma"` resolves `by_name` with no candidates to
a record attaining the best score. -/
theorem c3_witness :
    (fuzzy_resolve score80 demoRoster "Pria Sharma").2.2 = "by_name" ∧
    (fuzzy_resolve score80 demoRoster "Pria Sharma").2.1 = [] ∧
    ∃ r, (fuzzy_resolve score80 demoRoster "Pria Sharma").1 = some r ∧
      score80 (pyStrip "Pria Sharma") (fullName r) =
        maxScore (score80 (pyStrip "Pria Sharma")) (demoRoster.map fullName) :=
  (c3_fuzzy_thresholds score80 demoRoster "Pria Sharma" (by decide) (by decide)
    (by decide)).1 (by decide)

